import Mathlib

/-!
Verification of the `t` task runner's execution engine (package `runner`).

The definitions below are a shallow embedding of the Go source:

* `Task`, `Prompt`, `Config`, `DetachedProcess` mirror the structures of
  `runner.go`; Go maps are modelled as association lists (`List (String × _)`)
  whose order stands for one possible (unspecified) Go map iteration order.
* Effects are made explicit: the operator's standard input is a list of
  newline-terminated lines, the exit status of a spawned shell command is an
  oracle `String → Bool` (true = exit status zero) keyed by the rendered
  command string, and process liveness / kill outcomes are oracles on pids.
* Each observable action of the engine is recorded as an `Event` in an append
  only trace, so ordering and at-most-once properties can be stated about the
  trace.  The concurrent dependency fan-out of `runDependenciesParallel` is
  serialised: the association-list order of `deps` stands for one schedule of
  the goroutines; the mutex-protected double-checked region of
  `runTaskWithSync` (check `Ran`, prompt, mark) executes atomically in the Go
  code and is a single step here.
* Go's `text/template` execution (only the `\x7b\x7b.NAME\x7d\x7d` fragment the
  tool uses) and `strings.ReplaceAll`, `strings.TrimSpace`, `strconv.Atoi` are
  modelled faithfully, including the `<no value>` rendering that
  `text/template` produces for a key missing from a `map[string]string`.
-/

namespace T

/-- Go whitespace test used by `strings.TrimSpace` (ASCII fragment). -/
def isSpaceGo (c : Char) : Bool :=
  c = ' ' || c = '\t' || c = '\n' || c = '\r' || c = Char.ofNat 11 || c = Char.ofNat 12

/-- Model of Go `strings.TrimSpace`: drop leading and trailing whitespace. -/
def goTrimSpace (s : String) : String :=
  String.mk (((s.data.dropWhile isSpaceGo).reverse.dropWhile isSpaceGo).reverse)

/-- One scan of Go `strings.Replace(s, p :: ps, rep, -1)`: non-overlapping
left-to-right replacement; replaced text is not rescanned.  The structural
fuel equals the input length (each step consumes at least one character), so
the fuel never runs out when started with `fuel = l.length`. -/
def replaceAllAux (p : Char) (ps rep : List Char) : Nat → List Char → List Char
  | 0, _ => []
  | _ + 1, [] => []
  | fuel + 1, c :: cs =>
    if (p :: ps).isPrefixOf (c :: cs) then
      rep ++ replaceAllAux p ps rep fuel ((c :: cs).drop (p :: ps).length)
    else
      c :: replaceAllAux p ps rep fuel cs

/-- Model of Go `strings.ReplaceAll`.  For an empty pattern Go inserts the
replacement before every character and at the end. -/
def goReplaceAll (s pat rep : String) : String :=
  match pat.data with
  | [] => String.mk (s.data.foldr (fun c acc => rep.data ++ c :: acc) rep.data)
  | p :: ps => String.mk (replaceAllAux p ps rep.data s.data.length s.data)

/-- Characters Go `text/template` accepts in a field name (ASCII fragment). -/
def identChar (c : Char) : Bool :=
  c.isAlpha || c.isDigit || c = '_'

/-- Parse the inside of a template action: spaces, `.`, a field name, spaces,
`\x7d\x7d`.  Returns the field name and the remaining input. -/
def parseAction (l : List Char) : Option (String × List Char) :=
  let l1 := l.dropWhile (fun c => c = ' ')
  if l1.head? = some '.' then
    let l2 := l1.tail
    let name := l2.takeWhile identChar
    let l3 := (l2.dropWhile identChar).dropWhile (fun c => c = ' ')
    if name.isEmpty then none
    else if l3.take 2 = ['}', '}'] then some (String.mk name, l3.drop 2)
    else none
  else none

theorem parseAction_length {l : List Char} {name : String} {r : List Char}
    (h : parseAction l = some (name, r)) : r.length ≤ l.length := by
  unfold parseAction at h
  have h1 : (l.dropWhile (fun c => c = ' ')).length ≤ l.length :=
    (List.dropWhile_sublist _).length_le
  have h2 : ((l.dropWhile (fun c => c = ' ')).tail.dropWhile identChar).length ≤
      (l.dropWhile (fun c => c = ' ')).tail.length :=
    (List.dropWhile_sublist _).length_le
  have h3 : (((l.dropWhile (fun c => c = ' ')).tail.dropWhile identChar).dropWhile
      (fun c => c = ' ')).length ≤
      ((l.dropWhile (fun c => c = ' ')).tail.dropWhile identChar).length :=
    (List.dropWhile_sublist _).length_le
  have h4 : (l.dropWhile (fun c => c = ' ')).tail.length ≤
      (l.dropWhile (fun c => c = ' ')).length := by
    cases l.dropWhile (fun c => c = ' ') <;> simp
  simp only at h
  split at h
  · split at h
    · exact absurd h (by simp)
    · split at h
      · simp only [Option.some.injEq, Prod.mk.injEq] at h
        have hr := h.2
        subst hr
        simp only [List.length_drop]
        omega
      · exact absurd h (by simp)
  · exact absurd h (by simp)

/-- Variable lookup of `text/template` on a `map[string]string`: a missing
key renders as the literal text `<no value>` (Go default `missingkey`). -/
def lookupVar (vars : List (String × String)) (name : String) : String :=
  match vars.lookup name with
  | some v => v
  | none => "<no value>"

/-- Execution of the `text/template` fragment used by the tool: plain text is
copied, `\x7b\x7b . NAME \x7d\x7d` actions are substituted from `vars`, a
lone `\x7b` is literal text, and an ill-formed action is a template error
(as `template.Parse` would report).  The structural fuel equals the input
length (each step consumes at least one character, by `parseAction_length`),
so the fuel never runs out when started with `fuel = l.length`. -/
def renderTF (vars : List (String × String)) : Nat → List Char → Except String (List Char)
  | 0, _ => Except.ok []
  | _ + 1, [] => Except.ok []
  | fuel + 1, c :: rest =>
    if c = '{' ∧ rest.head? = some '{' then
      match parseAction rest.tail with
      | none => Except.error "template: parse error"
      | some (name, rest3) =>
        (renderTF vars fuel rest3).map (fun t => (lookupVar vars name).data ++ t)
    else
      (renderTF vars fuel rest).map (fun t => c :: t)

/-- `template.Execute` of one command template against the variable map. -/
def renderT (vars : List (String × String)) (l : List Char) : Except String (List Char) :=
  renderTF vars l.length l

instance {ε α : Type} [DecidableEq ε] [DecidableEq α] : DecidableEq (Except ε α) :=
  fun a b =>
    match a, b with
    | Except.ok x, Except.ok y =>
      if h : x = y then Decidable.isTrue (by rw [h])
      else Decidable.isFalse (fun hc => h (Except.ok.inj hc))
    | Except.error x, Except.error y =>
      if h : x = y then Decidable.isTrue (by rw [h])
      else Decidable.isFalse (fun hc => h (Except.error.inj hc))
    | Except.ok _, Except.error _ => Decidable.isFalse (fun hc => Except.noConfusion hc)
    | Except.error _, Except.ok _ => Decidable.isFalse (fun hc => Except.noConfusion hc)

/-- An interactive prompt configuration (`runner.Prompt`). -/
structure Prompt where
  message : String
  required : Bool
  default : String
deriving DecidableEq, Repr

/-- A single task configuration (`runner.Task`).  The `interactive` map is an
association list; its order models one Go map iteration order. -/
structure Task where
  desc : String
  deps : List String
  cmds : List String
  interactive : List (String × Prompt)
deriving DecidableEq, Repr

/-- The parsed `tasks.yaml` configuration (`runner.Config`, minus the unused
`Version` string). -/
structure Config where
  vars : List (String × String)
  tasks : List (String × Task)
deriving DecidableEq, Repr

/-- One observable action of the engine, recorded in an append-only trace:
`prompt t` is a call to `promptForInput` for task `t`, `mark t` is the
`Ran[t] = true` write inside the exclusive section, `exec t c` is a run of
the rendered shell command `c` on behalf of task `t`, and `spawn t c` is the
detached background start of `c`. -/
inductive Event where
  | prompt (task : String)
  | mark (task : String)
  | exec (task : String) (cmd : String)
  | spawn (task : String) (cmd : String)
deriving DecidableEq, Repr

/-- The runner's mutable state: the `Ran` set of completed task names, the
event trace, and the remaining operator input lines. -/
structure RState where
  ran : List String
  events : List Event
  stdin : List String
deriving DecidableEq, Repr

/-- A fresh per-invocation state (`NewRunner`): empty `Ran` set, empty trace,
the operator's input stream still unread. -/
def initState (stdin : List String) : RState :=
  ⟨[], [], stdin⟩

/-- `runner.expandVars`: render one command template against the static
variable mapping with Go `text/template`. -/
def expandVars (vars : List (String × String)) (command : String) : Except String String :=
  (renderT vars command.data).map String.mk

/-- `runner.expandVarsWithInteractive`: literal `strings.ReplaceAll` of each
`$name` by the collected value, one field after another, in the (unspecified)
iteration order that the `inputs` list models.  Never fails. -/
def expandVarsWithInteractive (cmdStr : String) (inputs : List (String × String)) : String :=
  inputs.foldl (fun r p => goReplaceAll r ("$" ++ p.1) p.2) cmdStr

/-- `runner.promptForInput`: read one operator line per interactive field in
order, trim it, fall back to a non-empty default when the trimmed line is
empty, and fail on an empty required field without default.  An exhausted
input stream is the `bufio` read error. -/
def promptForInput (fields : List (String × Prompt)) (stdin : List String) :
    Except String (List (String × String) × List String) :=
  match fields with
  | [] => Except.ok ([], stdin)
  | (varName, p) :: rest =>
    match stdin with
    | [] => Except.error "failed to read input: EOF"
    | line :: stdin1 =>
      let raw := goTrimSpace line
      let input := if raw = "" ∧ p.default ≠ "" then p.default else raw
      if p.required ∧ input = "" then
        Except.error ("required input '" ++ varName ++ "' not provided")
      else
        (promptForInput rest stdin1).map (fun r => ((varName, input) :: r.1, r.2))

/-- `runner.executeCommandsWithInteractive`: for each raw command in order,
expand static variables, then interactive variables, run the rendered string
through the shell (`exitZero` is the oracle for its exit status) and stop at
the first failure, naming the failing rendered command.  The trace `tr`
collects one `Event.exec` per command actually run. -/
def executeCommandsWithInteractive (vars : List (String × String)) (exitZero : String → Bool)
    (taskName : String) (inputs : List (String × String)) :
    List String → List Event → List Event × Except String Unit
  | [], tr => (tr, Except.ok ())
  | rawCmd :: rest, tr =>
    match expandVars vars rawCmd with
    | Except.error e => (tr, Except.error e)
    | Except.ok c1 =>
      let cmdStr := expandVarsWithInteractive c1 inputs
      if exitZero cmdStr then
        executeCommandsWithInteractive vars exitZero taskName inputs rest
          (tr ++ [Event.exec taskName cmdStr])
      else
        (tr ++ [Event.exec taskName cmdStr], Except.error ("command failed: " ++ cmdStr))

/-- The goroutine fan-out loop of `runner.runDependenciesParallel`, serialised
in list order: every dependency is run to completion (no cancellation), the
first error is collected and returned after all have finished, wrapped as
Go wraps it on the error channel. -/
def runDepsAux (f : RState → String → RState × Except String Unit) :
    List String → RState → Option String → RState × Option String
  | [], s, firstErr => (s, firstErr)
  | d :: rest, s, firstErr =>
    let r := f s d
    let e : Option String :=
      match r.2 with
      | Except.ok _ => none
      | Except.error msg => some ("dependency " ++ d ++ " failed: " ++ msg)
    let firstErr1 : Option String :=
      match firstErr with
      | some x => some x
      | none => e
    runDepsAux f rest r.1 firstErr1

/-- `runner.runDependenciesParallel`: a single dependency is run inline (its
error propagates unwrapped); two or more run through the fan-out loop. -/
def runDependenciesParallel (f : RState → String → RState × Except String Unit)
    (deps : List String) (s : RState) : RState × Except String Unit :=
  match deps with
  | [d] => f s d
  | _ =>
    let r := runDepsAux f deps s none
    match r.2 with
    | none => (r.1, Except.ok ())
    | some e => (r.1, Except.error e)

/-- The exclusive (write-locked) section of `runner.runTaskWithSync` after the
double-check found the task not yet done, plus the command run that follows
it: collect interactive input (a failure leaves the task unmarked), then mark
the task done, release the lock, and run the command sequence. -/
def markAndRun (cfg : Config) (exitZero : String → Bool) (taskName : String) (task : Task)
    (s : RState) : RState × Except String Unit :=
  let s2 : RState := ⟨s.ran, s.events ++ [Event.prompt taskName], s.stdin⟩
  match promptForInput task.interactive s2.stdin with
  | Except.error e => (s2, Except.error ("interactive input failed: " ++ e))
  | Except.ok (inputs, stdin2) =>
    let s3 : RState := ⟨taskName :: s2.ran, s2.events ++ [Event.mark taskName], stdin2⟩
    let r := executeCommandsWithInteractive cfg.vars exitZero taskName inputs task.cmds s3.events
    (⟨s3.ran, r.1, s3.stdin⟩, r.2)

/-- `runner.runTaskWithSync`: skip if already in `Ran`, fail on an unknown
task, run the dependencies, double-check `Ran`, then prompt, mark and execute.
The fuel argument bounds the recursion depth; the Go code has none and loops
forever on a dependency cycle (spec §7), which the model reports as an error
when the fuel runs out. -/
def runTaskWithSync (cfg : Config) (exitZero : String → Bool) :
    Nat → RState → String → RState × Except String Unit
  | 0, s, _ => (s, Except.error "recursion limit exceeded")
  | fuel + 1, s, taskName =>
    if taskName ∈ s.ran then (s, Except.ok ())
    else
      match cfg.tasks.lookup taskName with
      | none => (s, Except.error ("task " ++ taskName ++ " not found"))
      | some task =>
        let dp :=
          if task.deps.isEmpty then (s, Except.ok ())
          else runDependenciesParallel (fun s1 d => runTaskWithSync cfg exitZero fuel s1 d)
            task.deps s
        match dp.2 with
        | Except.error e => (dp.1, Except.error e)
        | Except.ok _ =>
          if taskName ∈ dp.1.ran then (dp.1, Except.ok ())
          else markAndRun cfg exitZero taskName task dp.1

/-- `runner.RunTask`, the public entry point. -/
def RunTask (cfg : Config) (exitZero : String → Bool) (fuel : Nat) (stdin : List String)
    (taskName : String) : RState × Except String Unit :=
  runTaskWithSync cfg exitZero fuel (initState stdin) taskName

/-- A persisted background-process record (`runner.DetachedProcess`).  The
start timestamp is kept as the opaque string that also names the log file. -/
structure DetachedProcess where
  pid : Int
  task_name : String
  command : String
  started_at : String
  log_file : String
deriving DecidableEq, Repr

/-- The synchronous setup loop of `RunTaskDetached` over all commands but the
last: expand static variables, run through the shell, stop at the first
failure. -/
def runSetup (vars : List (String × String)) (exitZero : String → Bool) (taskName : String) :
    List String → RState → RState × Except String Unit
  | [], s => (s, Except.ok ())
  | rawCmd :: rest, s =>
    match expandVars vars rawCmd with
    | Except.error e => (s, Except.error e)
    | Except.ok cmdStr =>
      let s1 : RState := ⟨s.ran, s.events ++ [Event.exec taskName cmdStr], s.stdin⟩
      if exitZero cmdStr then runSetup vars exitZero taskName rest s1
      else (s1, Except.error ("setup command failed: " ++ cmdStr))

/-- `runner.RunTaskDetached`: run the dependencies synchronously through the
graph executor, then run every command but the last as synchronous setup, and
spawn only the final rendered command as the background process, returning
its record.  `pid` and `timestamp` model the values the operating system and
clock supply; the spawned process is recorded as an `Event.spawn`. -/
def RunTaskDetached (cfg : Config) (exitZero : String → Bool) (fuel : Nat) (pid : Int)
    (timestamp : String) (s : RState) (taskName : String) :
    RState × Except String DetachedProcess :=
  match cfg.tasks.lookup taskName with
  | none => (s, Except.error ("task " ++ taskName ++ " not found"))
  | some task =>
    let dp :=
      if task.deps.isEmpty then (s, Except.ok ())
      else runDependenciesParallel (fun s1 d => runTaskWithSync cfg exitZero fuel s1 d)
        task.deps s
    match dp.2 with
    | Except.error e => (dp.1, Except.error ("dependencies failed: " ++ e))
    | Except.ok _ =>
      let logFile := ".t-logs/" ++ taskName ++ "-" ++ timestamp ++ ".log"
      if task.cmds.isEmpty then
        (dp.1, Except.error ("task " ++ taskName ++ " has no commands to run"))
      else
        let mainCmd := task.cmds.getLastD ""
        let setupCmds := task.cmds.dropLast
        match runSetup cfg.vars exitZero taskName setupCmds dp.1 with
        | (s2, Except.error e) => (s2, Except.error e)
        | (s2, Except.ok _) =>
          match expandVars cfg.vars mainCmd with
          | Except.error e => (s2, Except.error e)
          | Except.ok cmdStr =>
            (⟨s2.ran, s2.events ++ [Event.spawn taskName cmdStr], s2.stdin⟩,
             Except.ok ⟨pid, taskName, cmdStr, timestamp, logFile⟩)

/-- `runner.ListDetachedProcesses` over the parsed records of the store
directory: returns the records whose pid is live (per the `alive` oracle)
and, as a side effect, the store contents after deleting every dead record.
First component: the returned list; second: the surviving store. -/
def ListDetachedProcesses (alive : Int → Bool) :
    List DetachedProcess → List DetachedProcess × List DetachedProcess
  | [] => ([], [])
  | p :: rest =>
    let r := ListDetachedProcesses alive rest
    if alive p.pid then (p :: r.1, p :: r.2) else r

/-- Model of Go `strconv.Atoi`: an optional sign followed by one or more
decimal digits, and nothing else. -/
def parseDigits (l : List Char) : Option Nat :=
  if l.isEmpty then none
  else if l.all Char.isDigit then
    some (l.foldl (fun a c => a * 10 + (c.toNat - 48)) 0)
  else none

/-- `strconv.Atoi identifier` as used by `StopDetachedProcess`. -/
def atoi (s : String) : Option Int :=
  match s.data with
  | '+' :: ds => (parseDigits ds).map (fun n => (n : Int))
  | '-' :: ds => (parseDigits ds).map (fun n => -(n : Int))
  | ds => (parseDigits ds).map (fun n => (n : Int))

/-- What a `StopDetachedProcess` call did: the pid it signalled, the record it
matched (`none` when a literal pid had no record), and the store contents
afterwards (the list call's read-repair plus the removal of the target's
record file). -/
structure StopResult where
  pid : Int
  proc : Option DetachedProcess
  store : List DetachedProcess
deriving DecidableEq, Repr

/-- `runner.StopDetachedProcess` (Unix branch): list the live records, resolve
the identifier — a parseable integer is used as the target pid directly, with
the record (if any) looked up for reporting; otherwise the first live record
with that task name wins — fail if the resolved pid is zero, signal the
process group and the process (`killGroup`, `kill` oracles tell whether each
`kill` command succeeded), escalate to SIGKILL only if both failed, and
finally delete the target's record file. -/
def StopDetachedProcess (alive : Int → Bool) (killGroup kill kill9 : Int → Bool)
    (store : List DetachedProcess) (identifier : String) : Except String StopResult :=
  let lr := ListDetachedProcesses alive store
  let target : Int × Option DetachedProcess :=
    match atoi identifier with
    | some pid => (pid, lr.1.find? (fun p => p.pid = pid))
    | none =>
      match lr.1.find? (fun p => p.task_name = identifier) with
      | some p => (p.pid, some p)
      | none => (0, none)
  if target.1 = 0 then
    Except.error ("no detached process found with identifier: " ++ identifier)
  else
    let kg := killGroup target.1
    let kd := kill target.1
    if !kg && !kd && !kill9 target.1 then
      Except.error ("failed to kill process " ++ toString target.1)
    else
      Except.ok ⟨target.1, target.2, lr.2.filter (fun p => p.pid ≠ target.1)⟩

/-! ### Trace ordering and state invariants -/

/-- In the trace `tr`, every occurrence of `b` is preceded by an occurrence of
`a`: whichever prefix of the trace already contains `b` also contains `a`. -/
def BeforeIn (a b : Event) (tr : List Event) : Prop :=
  ∀ n, b ∈ tr.take n → a ∈ tr.take n

/-- The ordering discipline of the synchronous runner's trace: a task is
marked done only after its interactive input was collected, and a task's
commands run only after the task was marked done. -/
def GoodTrace (tr : List Event) : Prop :=
  (∀ t, BeforeIn (Event.prompt t) (Event.mark t) tr) ∧
  (∀ t c, BeforeIn (Event.mark t) (Event.exec t c) tr)

/-- Invariant tying the trace to the `Ran` set: marked tasks are in `Ran`,
no task is marked twice, and the trace is well ordered. -/
def Inv (s : RState) : Prop :=
  (∀ t, Event.mark t ∈ s.events → t ∈ s.ran) ∧
  (∀ t, s.events.count (Event.mark t) ≤ 1) ∧
  GoodTrace s.events

/-- One engine step only grows the state: `Ran` grows, the trace is appended
to (never with a `spawn` event, which only the detached path emits), and every
newly completed task has a `mark` event in the trace. -/
def Extends (s s1 : RState) : Prop :=
  s.ran ⊆ s1.ran ∧
  (∃ tl, s1.events = s.events ++ tl ∧ ∀ t c, Event.spawn t c ∉ tl) ∧
  (∀ t, t ∈ s1.ran → t ∈ s.ran ∨ Event.mark t ∈ s1.events)

theorem Extends.rfl {s : RState} : Extends s s :=
  ⟨fun _ h => h, ⟨[], by simp, by simp⟩, fun _ h => Or.inl h⟩

theorem Extends.trans {s1 s2 s3 : RState} (h : Extends s1 s2) (h2 : Extends s2 s3) :
    Extends s1 s3 := by
  obtain ⟨hr, ⟨tl, he, hs⟩, hm⟩ := h
  obtain ⟨hr2, ⟨tl2, he2, hs2⟩, hm2⟩ := h2
  refine ⟨fun t ht => hr2 (hr ht), ⟨tl ++ tl2, by rw [he2, he, List.append_assoc], ?_⟩, ?_⟩
  · intro t c hmem
    rcases List.mem_append.1 hmem with hmem | hmem
    · exact hs t c hmem
    · exact hs2 t c hmem
  · intro t ht
    rcases hm2 t ht with ht2 | ht2
    · rcases hm t ht2 with ht3 | ht3
      · exact Or.inl ht3
      · exact Or.inr (by rw [he2]; exact List.mem_append.2 (Or.inl ht3))
    · exact Or.inr ht2

theorem beforeIn_append {a b : Event} {l tl : List Event}
    (h : BeforeIn a b l) (h2 : b ∈ tl → a ∈ l) : BeforeIn a b (l ++ tl) := by
  intro n hb
  rw [List.take_append_eq_append_take] at hb ⊢
  rcases List.mem_append.1 hb with hb | hb
  · exact List.mem_append.2 (Or.inl (h n hb))
  · have hbl : b ∈ tl := List.take_subset _ _ hb
    have hal : a ∈ l := h2 hbl
    have hlen : l.length ≤ n := by
      by_contra hlt
      push_neg at hlt
      rw [Nat.sub_eq_zero_of_le (Nat.le_of_lt hlt), List.take_zero] at hb
      exact absurd hb (List.not_mem_nil b)
    exact List.mem_append.2 (Or.inl (by rw [List.take_of_length_le hlen]; exact hal))

theorem BeforeIn.mem {a b : Event} {l : List Event} (h : BeforeIn a b l) (hb : b ∈ l) :
    a ∈ l := by
  have := h l.length (by rw [List.take_length]; exact hb)
  rwa [List.take_length] at this

theorem goodTrace_append {l tl : List Event} (h : GoodTrace l)
    (hmk : ∀ t, Event.mark t ∈ tl → Event.prompt t ∈ l)
    (hex : ∀ t c, Event.exec t c ∈ tl → Event.mark t ∈ l) : GoodTrace (l ++ tl) :=
  ⟨fun t => beforeIn_append (h.1 t) (hmk t),
   fun t c => beforeIn_append (h.2 t c) (hex t c)⟩

theorem Inv_initState (stdin : List String) : Inv (initState stdin) := by
  refine ⟨?_, ?_, ?_, ?_⟩ <;> simp [initState, BeforeIn]

/-! ### Properties of the command executor -/

theorem execCmds_events (vars : List (String × String)) (exitZero : String → Bool)
    (taskName : String) (inputs : List (String × String)) :
    ∀ cmds tr, ∃ tl,
      (executeCommandsWithInteractive vars exitZero taskName inputs cmds tr).1 = tr ++ tl ∧
      ∀ e ∈ tl, ∃ c, e = Event.exec taskName c := by
  intro cmds
  induction cmds with
  | nil => intro tr; exact ⟨[], by simp [executeCommandsWithInteractive], by simp⟩
  | cons rawCmd rest ih =>
    intro tr
    simp only [executeCommandsWithInteractive]
    match expandVars vars rawCmd with
    | Except.error e => exact ⟨[], by simp, by simp⟩
    | Except.ok c1 =>
      simp only
      by_cases hz : exitZero (expandVarsWithInteractive c1 inputs)
      · rw [if_pos hz]
        obtain ⟨tl, he, hc⟩ := ih (tr ++ [Event.exec taskName (expandVarsWithInteractive c1 inputs)])
        refine ⟨Event.exec taskName (expandVarsWithInteractive c1 inputs) :: tl, ?_, ?_⟩
        · rw [he, List.append_assoc]
          rfl
        · intro e he2
          rcases List.mem_cons.1 he2 with he2 | he2
          · exact ⟨_, he2⟩
          · exact hc e he2
      · rw [if_neg hz]
        exact ⟨[Event.exec taskName (expandVarsWithInteractive c1 inputs)], by simp, by simp⟩

/-! ### Properties of the exclusive section -/

theorem markAndRun_sound (cfg : Config) (exitZero : String → Bool) (taskName : String)
    (task : Task) (s : RState) (hs : Inv s) (hn : taskName ∉ s.ran) :
    Inv (markAndRun cfg exitZero taskName task s).1 ∧
    Extends s (markAndRun cfg exitZero taskName task s).1 ∧
    ((markAndRun cfg exitZero taskName task s).2 = Except.ok () →
      taskName ∈ (markAndRun cfg exitZero taskName task s).1.ran) := by
  obtain ⟨hm, hc, hg⟩ := hs
  have hInv2 : Inv (⟨s.ran, s.events ++ [Event.prompt taskName], s.stdin⟩ : RState) := by
    refine ⟨?_, ?_, ?_⟩
    · intro t ht
      simp only [List.mem_append, List.mem_singleton] at ht
      rcases ht with ht | ht
      · exact hm t ht
      · exact absurd ht (by simp)
    · intro t
      rw [List.count_append]
      simpa using hc t
    · refine goodTrace_append hg ?_ ?_
      · intro t ht; exact absurd ht (by simp)
      · intro t c ht; exact absurd ht (by simp)
  simp only [markAndRun]
  cases hp : promptForInput task.interactive s.stdin with
  | error e =>
    simp only [hp]
    refine ⟨hInv2, ⟨fun t ht => ht, ⟨[Event.prompt taskName], rfl, by simp⟩,
      fun t ht => Or.inl ht⟩, fun h => absurd h (by simp)⟩
  | ok r =>
    simp only [hp]
    have hmark_notin : Event.mark taskName ∉ s.events := fun h => hn (hm taskName h)
    have hInv3 : Inv (⟨taskName :: s.ran,
        s.events ++ [Event.prompt taskName] ++ [Event.mark taskName], r.2⟩ : RState) := by
      obtain ⟨hm2, hc2, hg2⟩ := hInv2
      refine ⟨?_, ?_, ?_⟩
      · intro t ht
        simp only [List.mem_append, List.mem_singleton] at ht
        rcases ht with (ht | ht) | ht
        · exact List.mem_cons_of_mem _ (hm t ht)
        · exact absurd ht (by simp)
        · rw [Event.mark.inj ht]
          exact List.mem_cons_self _ _
      · intro t
        rw [List.count_append]
        by_cases hteq : t = taskName
        · subst hteq
          have h0 : List.count (Event.mark t) (s.events ++ [Event.prompt t]) = 0 := by
            refine List.count_eq_zero.2 ?_
            simp only [List.mem_append, List.mem_singleton]
            rintro (h | h)
            · exact hmark_notin h
            · exact absurd h (by simp)
          rw [h0]
          simp
        · have h1 : List.count (Event.mark t) [Event.mark taskName] = 0 := by
            refine List.count_eq_zero.2 ?_
            simp [hteq]
          rw [h1]
          simpa using hc2 t
      · refine goodTrace_append hg2 ?_ ?_
        · intro t ht
          simp only [List.mem_singleton] at ht
          rw [Event.mark.inj ht]
          simp
        · intro t c ht
          exact absurd ht (by simp)
    obtain ⟨tl, he, hall⟩ := execCmds_events cfg.vars exitZero taskName r.1 task.cmds
      (s.events ++ [Event.prompt taskName] ++ [Event.mark taskName])
    have hno_mark : ∀ t, Event.mark t ∉ tl := by
      intro t ht
      obtain ⟨c, hc⟩ := hall _ ht
      exact absurd hc (by simp)
    have hno_spawn : ∀ t c, Event.spawn t c ∉ tl := by
      intro t c ht
      obtain ⟨c2, hc⟩ := hall _ ht
      exact absurd hc (by simp)
    rw [he]
    obtain ⟨hm3, hc3, hg3⟩ := hInv3
    refine ⟨⟨?_, ?_, ?_⟩, ⟨?_, ?_, ?_⟩, fun _ => List.mem_cons_self _ _⟩
    · intro t ht
      rcases List.mem_append.1 ht with ht | ht
      · exact hm3 t ht
      · exact absurd ht (hno_mark t)
    · intro t
      rw [List.count_append, List.count_eq_zero.2 (hno_mark t)]
      simpa using hc3 t
    · refine goodTrace_append hg3 ?_ ?_
      · intro t ht
        exact absurd ht (hno_mark t)
      · intro t c ht
        obtain ⟨c2, hc⟩ := hall _ ht
        rw [show t = taskName from (Event.exec.inj hc).1]
        simp
    · exact fun t ht => List.mem_cons_of_mem _ ht
    · refine ⟨[Event.prompt taskName] ++ [Event.mark taskName] ++ tl, by simp, ?_⟩
      intro t c ht
      simp only [List.mem_append, List.mem_singleton] at ht
      rcases ht with (ht | ht) | ht
      · exact absurd ht (by simp)
      · exact absurd ht (by simp)
      · exact hno_spawn t c ht
    · intro t ht
      rcases List.mem_cons.1 ht with ht | ht
      · subst ht
        refine Or.inr ?_
        simp
      · exact Or.inl ht
/-! ### Soundness of the graph executor -/

/-- Soundness package for the function a dependency loop calls back into. -/
def FSound (f : RState → String → RState × Except String Unit) : Prop :=
  ∀ s name, Inv s →
    Inv (f s name).1 ∧ Extends s (f s name).1 ∧
    ((f s name).2 = Except.ok () → name ∈ (f s name).1.ran)

theorem runDepsAux_sound {f : RState → String → RState × Except String Unit} (hf : FSound f) :
    ∀ deps s firstErr, Inv s →
      Inv (runDepsAux f deps s firstErr).1 ∧
      Extends s (runDepsAux f deps s firstErr).1 ∧
      ((runDepsAux f deps s firstErr).2 = none →
        firstErr = none ∧ ∀ d ∈ deps, d ∈ (runDepsAux f deps s firstErr).1.ran) := by
  intro deps
  induction deps with
  | nil =>
    intro s firstErr hs
    simp only [runDepsAux]
    exact ⟨hs, Extends.rfl, fun h => ⟨h, by simp⟩⟩
  | cons d rest ih =>
    intro s firstErr hs
    obtain ⟨h1, h2, h3⟩ := hf s d hs
    simp only [runDepsAux]
    cases hfd : (f s d).2 with
    | ok u =>
      cases u
      simp only
      cases firstErr with
      | none =>
        simp only
        obtain ⟨h4, h5, h6⟩ := ih (f s d).1 none h1
        refine ⟨h4, Extends.trans h2 h5, fun hres => ⟨by simp, fun d2 hd2 => ?_⟩⟩
        rcases List.mem_cons.1 hd2 with hd2 | hd2
        · subst hd2
          exact h5.1 (h3 hfd)
        · exact (h6 hres).2 d2 hd2
      | some x =>
        simp only
        obtain ⟨h4, h5, h6⟩ := ih (f s d).1 (some x) h1
        refine ⟨h4, Extends.trans h2 h5, fun hres => absurd (h6 hres).1 (by simp)⟩
    | error msg =>
      simp only
      cases firstErr with
      | none =>
        simp only
        obtain ⟨h4, h5, h6⟩ := ih (f s d).1 (some ("dependency " ++ d ++ " failed: " ++ msg)) h1
        refine ⟨h4, Extends.trans h2 h5, fun hres => absurd (h6 hres).1 (by simp)⟩
      | some x =>
        simp only
        obtain ⟨h4, h5, h6⟩ := ih (f s d).1 (some x) h1
        refine ⟨h4, Extends.trans h2 h5, fun hres => absurd (h6 hres).1 (by simp)⟩

theorem runDependenciesParallel_sound {f : RState → String → RState × Except String Unit}
    (hf : FSound f) (deps : List String) (s : RState) (hs : Inv s) :
    Inv (runDependenciesParallel f deps s).1 ∧
    Extends s (runDependenciesParallel f deps s).1 ∧
    ((runDependenciesParallel f deps s).2 = Except.ok () →
      ∀ d ∈ deps, d ∈ (runDependenciesParallel f deps s).1.ran) := by
  match deps with
  | [d] =>
    obtain ⟨h1, h2, h3⟩ := hf s d hs
    simp only [runDependenciesParallel]
    refine ⟨h1, h2, fun hok d2 hd2 => ?_⟩
    rw [List.mem_singleton.1 hd2]
    exact h3 hok
  | [] =>
    simp only [runDependenciesParallel, runDepsAux]
    exact ⟨hs, Extends.rfl, fun _ => by simp⟩
  | d1 :: d2 :: ds =>
    obtain ⟨h1, h2, h3⟩ := runDepsAux_sound hf (d1 :: d2 :: ds) s none hs
    simp only [runDependenciesParallel]
    cases hr : (runDepsAux f (d1 :: d2 :: ds) s none).2 with
    | none =>
      simp only
      exact ⟨h1, h2, fun _ => (h3 hr).2⟩
    | some e =>
      simp only
      exact ⟨h1, h2, fun hok => absurd hok (by simp)⟩

theorem runTask_sound (cfg : Config) (exitZero : String → Bool) :
    ∀ fuel, FSound (runTaskWithSync cfg exitZero fuel) := by
  intro fuel
  induction fuel with
  | zero =>
    intro s name hs
    simp only [runTaskWithSync]
    exact ⟨hs, Extends.rfl, fun h => absurd h (by simp)⟩
  | succ fuel ih =>
    intro s name hs
    simp only [runTaskWithSync]
    by_cases hmem : name ∈ s.ran
    · rw [if_pos hmem]
      exact ⟨hs, Extends.rfl, fun _ => hmem⟩
    · rw [if_neg hmem]
      cases hlook : cfg.tasks.lookup name with
      | none =>
        simp only
        exact ⟨hs, Extends.rfl, fun h => absurd h (by simp)⟩
      | some task =>
        simp only
        set D := if task.deps.isEmpty then (s, Except.ok ())
          else runDependenciesParallel (fun s1 d => runTaskWithSync cfg exitZero fuel s1 d)
            task.deps s with hD
        have hdp : Inv D.1 ∧ Extends s D.1 := by
          by_cases hde : task.deps.isEmpty
          · rw [hD, if_pos hde]
            exact ⟨hs, Extends.rfl⟩
          · rw [hD, if_neg hde]
            obtain ⟨a, b, c⟩ := runDependenciesParallel_sound ih task.deps s hs
            exact ⟨a, b⟩
        cases hD2 : D.2 with
        | error e =>
          simp only
          exact ⟨hdp.1, hdp.2, fun h => absurd h (by simp)⟩
        | ok u =>
          cases u
          simp only
          by_cases hm2 : name ∈ D.1.ran
          · rw [if_pos hm2]
            exact ⟨hdp.1, hdp.2, fun _ => hm2⟩
          · rw [if_neg hm2]
            obtain ⟨i, e2, k⟩ := markAndRun_sound cfg exitZero name task D.1 hdp.1 hm2
            exact ⟨i, Extends.trans hdp.2 e2, k⟩


theorem runTask_skip (cfg : Config) (exitZero : String → Bool) (fuel : Nat) (s : RState)
    (name : String) (h : name ∈ s.ran) :
    runTaskWithSync cfg exitZero (fuel + 1) s name = (s, Except.ok ()) := by
  simp only [runTaskWithSync, if_pos h]

theorem runDepsAux_skip {f : RState → String → RState × Except String Unit} {s : RState} :
    ∀ deps, (∀ d ∈ deps, f s d = (s, Except.ok ())) →
      ∀ firstErr, runDepsAux f deps s firstErr = (s, firstErr) := by
  intro deps
  induction deps with
  | nil => intro _ firstErr; simp [runDepsAux]
  | cons d rest ih =>
    intro hall firstErr
    have hd := hall d (List.mem_cons_self d rest)
    simp only [runDepsAux, hd]
    have hrest := ih (fun d2 hd2 => hall d2 (List.mem_cons_of_mem d hd2))
    cases firstErr <;> simpa using hrest _

theorem runDeps_skip (cfg : Config) (exitZero : String → Bool) (fuel : Nat) (s : RState)
    (deps : List String) (h : ∀ d ∈ deps, d ∈ s.ran) :
    runDependenciesParallel (fun s1 d => runTaskWithSync cfg exitZero (fuel + 1) s1 d) deps s
      = (s, Except.ok ()) := by
  have hall : ∀ d ∈ deps, runTaskWithSync cfg exitZero (fuel + 1) s d = (s, Except.ok ()) :=
    fun d hd => runTask_skip cfg exitZero fuel s d (h d hd)
  match deps with
  | [] =>
    simp only [runDependenciesParallel]
    rw [runDepsAux_skip [] (by simp)]
  | [d] =>
    simp only [runDependenciesParallel]
    exact hall d (by simp)
  | d1 :: d2 :: ds =>
    simp only [runDependenciesParallel]
    rw [runDepsAux_skip (d1 :: d2 :: ds) (fun d hd => hall d hd)]

/-! ### Claim C1 -/

/-- The diamond dependency graph of spec §8: `A: deps=[C]`, `B: deps=[C]`,
`D: deps=[A, B]`, so `C` is reached through two sibling dependency edges. -/
def diamondCfg : Config :=
  ⟨[], [("A", ⟨"", ["C"], ["echo a"], []⟩),
        ("B", ⟨"", ["C"], ["echo b"], []⟩),
        ("C", ⟨"", [], ["echo c"], []⟩),
        ("D", ⟨"", ["A", "B"], ["echo d"], []⟩)]⟩

/-- Claim C1: within one invocation every task's command sequence starts at
most once (a task is never marked done twice, and commands only run for a
task marked exactly once), the entry task runs exactly once on success, and a
later `run` call for an already-completed task returns success with the state
untouched, re-executing nothing. -/
theorem C1_run_exactly_once (cfg : Config) (exitZero : String → Bool) (fuel : Nat)
    (stdin : List String) (name : String) :
    (∀ t, (RunTask cfg exitZero fuel stdin name).1.events.count (Event.mark t) ≤ 1) ∧
    (∀ t c, Event.exec t c ∈ (RunTask cfg exitZero fuel stdin name).1.events →
      (RunTask cfg exitZero fuel stdin name).1.events.count (Event.mark t) = 1) ∧
    ((RunTask cfg exitZero fuel stdin name).2 = Except.ok () →
      (RunTask cfg exitZero fuel stdin name).1.events.count (Event.mark name) = 1) ∧
    ((RunTask cfg exitZero fuel stdin name).2 = Except.ok () → ∀ fuel2,
      runTaskWithSync cfg exitZero (fuel2 + 1) (RunTask cfg exitZero fuel stdin name).1 name
        = ((RunTask cfg exitZero fuel stdin name).1, Except.ok ())) := by
  simp only [RunTask]
  obtain ⟨hI, hE, hok⟩ :=
    runTask_sound cfg exitZero fuel (initState stdin) name (Inv_initState stdin)
  have hcount := hI.2.1
  have hone : ∀ t, Event.mark t ∈ (runTaskWithSync cfg exitZero fuel (initState stdin) name).1.events →
      (runTaskWithSync cfg exitZero fuel (initState stdin) name).1.events.count (Event.mark t) = 1 := by
    intro t ht
    have h1 : 0 < (runTaskWithSync cfg exitZero fuel (initState stdin) name).1.events.count (Event.mark t) :=
      List.count_pos_iff.2 ht
    have h2 := hcount t
    omega
  refine ⟨hcount, ?_, ?_, ?_⟩
  · intro t c hexec
    exact hone t ((hI.2.2.2 t c).mem hexec)
  · intro h
    have hmem : name ∈ (runTaskWithSync cfg exitZero fuel (initState stdin) name).1.ran := hok h
    rcases hE.2.2 name hmem with habs | hmark
    · exact absurd habs (by simp [initState])
    · exact hone name hmark
  · intro h fuel2
    exact runTask_skip cfg exitZero fuel2 _ name (hok h)

theorem C1_run_exactly_once_witness :
    Event.exec "C" "echo c" ∈ (RunTask diamondCfg (fun _ => true) 10 [] "D").1.events ∧
    (RunTask diamondCfg (fun _ => true) 10 [] "D").1.events.count (Event.mark "C") = 1 ∧
    (RunTask diamondCfg (fun _ => true) 10 [] "D").1.events.count (Event.mark "D") = 1 ∧
    runTaskWithSync diamondCfg (fun _ => true) 4 (RunTask diamondCfg (fun _ => true) 10 [] "D").1 "D"
      = ((RunTask diamondCfg (fun _ => true) 10 [] "D").1, Except.ok ()) :=
  ⟨by decide,
   (C1_run_exactly_once diamondCfg (fun _ => true) 10 [] "D").2.1 "C" "echo c" (by decide),
   (C1_run_exactly_once diamondCfg (fun _ => true) 10 [] "D").2.2.1 (by decide),
   (C1_run_exactly_once diamondCfg (fun _ => true) 10 [] "D").2.2.2 (by decide) 3⟩

/-! ### Claim C2 -/

/-- A configuration with one interactive task: `greet` asks for `name`
(optional, default `world`) and then runs one command. -/
def promptCfg : Config :=
  ⟨[], [("greet", ⟨"", [], ["echo hi"], [("name", ⟨"Your name", false, "world"⟩)]⟩)]⟩

/-- Counterexample to claim C2.  The claim says the Graph Executor collects
interactive input only *after* marking the task done, i.e. any trace prefix
containing the prompt event would already contain the mark event.  In this
concrete run (task `greet`, operator answers with an empty line) the prompt
event is the first trace entry and the mark event only comes second, so the
code collects interactive input *before* marking the task done. -/
theorem C2_counterexample :
    ¬ BeforeIn (Event.mark "greet") (Event.prompt "greet")
      (RunTask promptCfg (fun _ => true) 2 [""] "greet").1.events :=
  fun h => absurd (h 1 (by decide)) (by decide)

/-- Claim C2 (amended): when the double-check under exclusive access finds the
task not yet done, the executor collects interactive input first (still under
the lock), then marks the task done before releasing the lock and before
running the task's own commands: in every trace of the runner, a task's mark
event is preceded by its prompt event, and every execution of the task's
commands is preceded by its mark event. -/
theorem C2_mark_before_commands (cfg : Config) (exitZero : String → Bool) (fuel : Nat)
    (stdin : List String) (name : String) :
    GoodTrace (RunTask cfg exitZero fuel stdin name).1.events := by
  simp only [RunTask]
  exact (runTask_sound cfg exitZero fuel (initState stdin) name (Inv_initState stdin)).1.2.2

theorem C2_mark_before_commands_witness :
    Event.prompt "greet" ∈ (RunTask promptCfg (fun _ => true) 2 [""] "greet").1.events.take 2 ∧
    Event.mark "greet" ∈ (RunTask promptCfg (fun _ => true) 2 [""] "greet").1.events.take 3 :=
  ⟨(C2_mark_before_commands promptCfg (fun _ => true) 2 [""] "greet").1 "greet" 2 (by decide),
   (C2_mark_before_commands promptCfg (fun _ => true) 2 [""] "greet").2 "greet" "echo hi" 3
     (by decide)⟩

/-! ### Claim C3 -/

/-- Claim C3: the commands of a task run strictly in declared order; execution
succeeds exactly when every rendered command exits with status zero; at the
first non-zero exit it fails naming the failing command string, and no later
command of the sequence is executed.  `rendered` is the list of fully rendered
command strings (static pass then interactive pass, as the code applies them);
the trace extension records which commands ran and in which order. -/
theorem C3_commands_in_order (vars : List (String × String)) (exitZero : String → Bool)
    (taskName : String) (inputs : List (String × String)) (cmds rendered : List String)
    (tr : List Event)
    (hr : cmds.mapM (fun c => (expandVars vars c).map
        (fun c1 => expandVarsWithInteractive c1 inputs)) = Except.ok rendered) :
    (rendered.all exitZero = true →
      executeCommandsWithInteractive vars exitZero taskName inputs cmds tr
        = (tr ++ rendered.map (Event.exec taskName), Except.ok ())) ∧
    (rendered.all exitZero = false →
      executeCommandsWithInteractive vars exitZero taskName inputs cmds tr
        = (tr ++ (rendered.take ((rendered.takeWhile exitZero).length + 1)).map
            (Event.exec taskName),
           Except.error ("command failed: "
             ++ rendered.getD (rendered.takeWhile exitZero).length ""))) := by
  induction cmds generalizing rendered tr with
  | nil =>
    have hre : rendered = [] := (Except.ok.inj hr).symm
    subst hre
    simp [executeCommandsWithInteractive]
  | cons c rest ih =>
    rw [List.mapM_cons] at hr
    cases he : expandVars vars c with
    | error msg =>
      rw [he] at hr
      exact absurd hr (by simp [Bind.bind, Except.bind, Except.map])
    | ok c1 =>
      rw [he] at hr
      cases hm : rest.mapM (fun c => (expandVars vars c).map
          (fun c1 => expandVarsWithInteractive c1 inputs)) with
      | error msg =>
        rw [hm] at hr
        exact absurd hr (by simp [Bind.bind, Except.bind, Except.map])
      | ok rs =>
        rw [hm] at hr
        simp only [Bind.bind, Except.bind, Except.map, pure, Except.pure, Except.ok.injEq] at hr
        subst hr
        simp only [executeCommandsWithInteractive, he]
        by_cases hz : exitZero (expandVarsWithInteractive c1 inputs)
        · rw [if_pos hz]
          obtain ⟨ih1, ih2⟩ := ih rs (tr ++ [Event.exec taskName (expandVarsWithInteractive c1 inputs)]) hm
          constructor
          · intro hall
            rw [List.all_cons, hz, Bool.true_and] at hall
            rw [ih1 hall]
            simp
          · intro hall
            rw [List.all_cons, hz, Bool.true_and] at hall
            rw [ih2 hall]
            rw [List.takeWhile_cons_of_pos hz]
            simp only [List.length_cons, List.take_succ_cons, List.getD_cons_succ,
              List.map_cons, List.append_assoc, List.cons_append, List.nil_append]
        · rw [if_neg hz]
          have hzf : exitZero (expandVarsWithInteractive c1 inputs) = false :=
            Bool.eq_false_iff.2 hz
          constructor
          · intro hall
            rw [List.all_cons, hzf] at hall
            simp at hall
          · intro _
            rw [List.takeWhile_cons_of_neg hz]
            simp


theorem C3_commands_in_order_witness :
    executeCommandsWithInteractive [] (fun c => !(c == "fail2")) "t" [] ["ok1", "fail2", "ok3"] []
      = ([Event.exec "t" "ok1", Event.exec "t" "fail2"],
         Except.error "command failed: fail2") ∧
    executeCommandsWithInteractive [] (fun c => !(c == "fail2")) "t" [] ["ok1", "ok3"] []
      = ([Event.exec "t" "ok1", Event.exec "t" "ok3"], Except.ok ()) :=
  ⟨by
    have h := (C3_commands_in_order [] (fun c => !(c == "fail2")) "t" [] ["ok1", "fail2", "ok3"]
      ["ok1", "fail2", "ok3"] [] (by decide)).2 (by decide)
    exact h.trans (by decide),
   by
    have h := (C3_commands_in_order [] (fun c => !(c == "fail2")) "t" [] ["ok1", "ok3"]
      ["ok1", "ok3"] [] (by decide)).1 (by decide)
    exact h.trans (by decide)⟩


/-! ### Claim C4: the template engine -/

theorem renderTF_fuel (vars : List (String × String)) :
    ∀ fuel fuel2 l, l.length ≤ fuel → l.length ≤ fuel2 →
      renderTF vars fuel l = renderTF vars fuel2 l := by
  intro fuel
  induction fuel with
  | zero =>
    intro fuel2 l h1 _
    have : l = [] := List.length_eq_zero.1 (Nat.le_zero.1 h1)
    subst this
    cases fuel2 <;> rfl
  | succ f ih =>
    intro fuel2 l h1 h2
    cases l with
    | nil => cases fuel2 <;> rfl
    | cons c rest =>
      simp only [List.length_cons] at h1 h2
      cases fuel2 with
      | zero => omega
      | succ f2 =>
        simp only [renderTF]
        by_cases hc : c = '{' ∧ rest.head? = some '{'
        · rw [if_pos hc, if_pos hc]
          cases hp : parseAction rest.tail with
          | none => rfl
          | some r =>
            obtain ⟨nm, r3⟩ := r
            have hlen := parseAction_length hp
            rw [List.length_tail] at hlen
            simp only [ih f2 r3 (by omega) (by omega)]
        · rw [if_neg hc, if_neg hc]
          rw [ih f2 rest (by omega) (by omega)]

theorem renderT_cons_plain (vars : List (String × String)) (x : Char) (l : List Char)
    (hx : ¬(x = '{' ∧ l.head? = some '{')) :
    renderT vars (x :: l) = (renderT vars l).map (fun t => x :: t) := by
  simp only [renderT, List.length_cons, renderTF, if_neg hx]

theorem renderT_action (vars : List (String × String)) (rest2 rest3 : List Char) (name : String)
    (h : parseAction rest2 = some (name, rest3)) :
    renderT vars ('{' :: '{' :: rest2)
      = (renderT vars rest3).map (fun t => (lookupVar vars name).data ++ t) := by
  have hlen := parseAction_length h
  simp only [renderT, List.length_cons, renderTF]
  rw [if_pos (by simp)]
  simp only [List.tail_cons, h]
  rw [renderTF_fuel vars (rest2.length + 1) rest3.length rest3 (by omega) (by omega)]

theorem renderT_append_plain (vars : List (String × String)) :
    ∀ pre l, (∀ c ∈ pre, c ≠ '{') →
      renderT vars (pre ++ l) = (renderT vars l).map (fun t => pre ++ t) := by
  intro pre
  induction pre with
  | nil =>
    intro l _
    rw [List.nil_append]
    cases h : renderT vars l <;> simp [Except.map, h]
  | cons x p ih =>
    intro l hpre
    have hx : x ≠ '{' := hpre x (by simp)
    rw [List.cons_append, renderT_cons_plain vars x (p ++ l) (fun hc => hx hc.1),
      ih l (fun c hc => hpre c (List.mem_cons_of_mem x hc))]
    cases h : renderT vars l <;> simp [Except.map, h]

theorem takeWhile_all_append (p : Char → Bool) :
    ∀ (l1 l2 : List Char), (∀ c ∈ l1, p c) → (∀ hd, l2.head? = some hd → ¬ p hd) →
      (l1 ++ l2).takeWhile p = l1 ∧ (l1 ++ l2).dropWhile p = l2 := by
  intro l1
  induction l1 with
  | nil =>
    intro l2 _ h2
    cases l2 with
    | nil => simp
    | cons hd tl =>
      have := h2 hd rfl
      constructor
      · rw [List.nil_append, List.takeWhile_cons_of_neg this]
      · rw [List.nil_append, List.dropWhile_cons_of_neg this]
  | cons x l1 ih =>
    intro l2 h1 h2
    have hx : p x := h1 x (by simp)
    obtain ⟨iht, ihd⟩ := ih l2 (fun c hc => h1 c (List.mem_cons_of_mem x hc)) h2
    constructor
    · rw [List.cons_append, List.takeWhile_cons_of_pos hx, iht]
    · rw [List.cons_append, List.dropWhile_cons_of_pos hx, ihd]

theorem parseAction_of_name (name : List Char) (post : List Char)
    (h1 : name ≠ []) (h2 : ∀ c ∈ name, identChar c) :
    parseAction ('.' :: (name ++ '}' :: '}' :: post)) = some (String.mk name, post) := by
  have hdot : ('.' :: (name ++ '}' :: '}' :: post)).dropWhile (fun c => c = ' ')
      = '.' :: (name ++ '}' :: '}' :: post) :=
    List.dropWhile_cons_of_neg (by decide)
  obtain ⟨ht, hd⟩ := takeWhile_all_append identChar name ('}' :: '}' :: post) h2
    (by
      intro hd hh
      rw [List.head?_cons] at hh
      have h3 : hd = '}' := (Option.some.inj hh).symm
      subst h3
      decide)
  have hdrop2 : ('}' :: '}' :: post).dropWhile (fun c => c = ' ') = '}' :: '}' :: post :=
    List.dropWhile_cons_of_neg (by decide)
  simp only [parseAction, hdot, List.head?_cons, Option.some.injEq, List.tail_cons, ht, hd,
    hdrop2, if_true]
  rw [if_neg (by simpa using h1), if_pos (by simp)]
  simp


theorem stringEq_of_data {a b : String} (h : a.data = b.data) : a = b := by
  cases a
  cases b
  cases h
  rfl

/-- Counterexample to claim C4.  The claim says a placeholder referencing a
variable absent from the static mapping renders as the empty string; Go
`text/template` (default `missingkey` option on a `map[string]string`)
renders it as the literal text `<no value>` instead:
`build \x7b\x7b.MISSING\x7d\x7d` with vars `\x7bNAME: x\x7d` renders as
`build <no value>`, not `build `. -/
theorem C4_counterexample :
    expandVars [("NAME", "x")] "build \x7b\x7b.MISSING\x7d\x7d"
      = Except.ok "build <no value>" ∧
    expandVars [("NAME", "x")] "build \x7b\x7b.MISSING\x7d\x7d" ≠ Except.ok "build " :=
  ⟨by decide, by decide⟩

/-- Claim C4 (amended): static-variable expansion of `build \x7b\x7b.NAME\x7d\x7d`
against `\x7bNAME: x\x7d` returns `build x`, and for every template, a
placeholder referencing a variable not present in the static mapping renders
as the literal text `<no value>` — not as the empty string — and does not
cause an error. -/
theorem C4_missing_var_no_value (vars : List (String × String)) (name pre post : String)
    (hpre : ∀ c ∈ pre.data, c ≠ '{')
    (h1 : name.data ≠ []) (h2 : ∀ c ∈ name.data, identChar c)
    (hmiss : vars.lookup name = none) :
    expandVars vars (pre ++ "\x7b\x7b." ++ name ++ "\x7d\x7d" ++ post)
      = (expandVars vars post).map (fun r => pre ++ "<no value>" ++ r) ∧
    expandVars [("NAME", "x")] "build \x7b\x7b.NAME\x7d\x7d" = Except.ok "build x" := by
  constructor
  · have hdata : (pre ++ "\x7b\x7b." ++ name ++ "\x7d\x7d" ++ post).data
        = pre.data ++ ('{' :: '{' :: ('.' :: (name.data ++ '}' :: '}' :: post.data))) := by
      simp [String.data_append]
    rw [expandVars, hdata, renderT_append_plain vars pre.data _ hpre,
      renderT_action vars _ _ _ (parseAction_of_name name.data post.data h1 h2)]
    have hlk : lookupVar vars (String.mk name.data) = "<no value>" := by
      have hmk : String.mk name.data = name := rfl
      rw [hmk, lookupVar, hmiss]
    rw [hlk]
    cases hp : renderT vars post.data with
    | error e => simp [expandVars, hp, Except.map]
    | ok t =>
      simp only [expandVars, hp, Except.map]
      refine congrArg Except.ok (stringEq_of_data ?_)
      simp [String.data_append]
  · decide

theorem C4_missing_var_no_value_witness :
    expandVars [("NAME", "x")] ("build " ++ "\x7b\x7b." ++ "MISSING" ++ "\x7d\x7d" ++ "")
      = Except.ok "build <no value>" := by
  have h := (C4_missing_var_no_value [("NAME", "x")] "MISSING" "build " "" (by decide) (by decide)
    (by decide) (by decide)).1
  exact h.trans (by decide)

/-! ### Claims C5, C6, C10, C7 -/

/-- Counterexample to claim C5.  The claim says an interactive value
containing `$y` text is substituted verbatim and never evaluated as a further
placeholder.  The interactive pass applies one `strings.ReplaceAll` per field
over the result of the previous one, in Go's unspecified map iteration order
(modelled by the list order): with fields iterated `a` then `b`, the command
`$a` first becomes the value of `a`, namely `$b`, and the later replacement
for `b` then rewrites that inserted text to `X` — not verbatim. -/
theorem C5_counterexample :
    expandVarsWithInteractive "$a" [("a", "$b"), ("b", "X")] = "X" ∧
    expandVarsWithInteractive "$a" [("a", "$b"), ("b", "X")] ≠ "$b" :=
  ⟨by decide, by decide⟩

/-- Claim C5 (amended): for every command of a task with interactive fields,
the static `\x7b\x7b.NAME\x7d\x7d` template pass is applied first and the
`$name` interactive pass second (every command the executor runs is the
interactive expansion of the static expansion of the raw command), and the
interactive pass is a plain literal find/replace, never template evaluation,
so a single field's replacement inserts its value verbatim — even when the
value contains `\x7b\x7b.X\x7d\x7d` or `$`-text; however, a later field's
replacement can further rewrite `$y` text inserted by an earlier field. -/
theorem C5_static_then_interactive :
    (∀ (vars inputs : List (String × String)) (exitZero : String → Bool)
      (taskName : String) (cmds : List String) (tr : List Event) (e : Event),
      e ∈ (executeCommandsWithInteractive vars exitZero taskName inputs cmds tr).1 →
      e ∈ tr ∨ ∃ raw c1, raw ∈ cmds ∧ expandVars vars raw = Except.ok c1 ∧
        e = Event.exec taskName (expandVarsWithInteractive c1 inputs)) ∧
    expandVarsWithInteractive "run $msg" [("msg", "a \x7b\x7b.X\x7d\x7d $msg b")]
      = "run a \x7b\x7b.X\x7d\x7d $msg b" := by
  constructor
  · intro vars inputs exitZero taskName cmds
    induction cmds with
    | nil =>
      intro tr e he
      exact Or.inl (by simpa [executeCommandsWithInteractive] using he)
    | cons raw rest ih =>
      intro tr e he
      simp only [executeCommandsWithInteractive] at he
      cases hx : expandVars vars raw with
      | error msg =>
        rw [hx] at he
        exact Or.inl he
      | ok c1 =>
        rw [hx] at he
        simp only at he
        by_cases hz : exitZero (expandVarsWithInteractive c1 inputs)
        · rw [if_pos hz] at he
          rcases ih (tr ++ [Event.exec taskName (expandVarsWithInteractive c1 inputs)]) e he with
            hm | ⟨raw2, c2, hmem, hx2, he2⟩
          · rcases List.mem_append.1 hm with hm | hm
            · exact Or.inl hm
            · exact Or.inr ⟨raw, c1, by simp, hx, List.mem_singleton.1 hm⟩
          · exact Or.inr ⟨raw2, c2, List.mem_cons_of_mem raw hmem, hx2, he2⟩
        · rw [if_neg hz] at he
          rcases List.mem_append.1 he with hm | hm
          · exact Or.inl hm
          · exact Or.inr ⟨raw, c1, by simp, hx, List.mem_singleton.1 hm⟩
  · decide

theorem C5_static_then_interactive_witness :
    Event.exec "t" "run s x"
        ∈ [] ∨ ∃ raw c1, raw ∈ ["run \x7b\x7b.V\x7d\x7d $f"]
          ∧ expandVars [("V", "s")] raw = Except.ok c1
          ∧ Event.exec "t" "run s x" = Event.exec "t" (expandVarsWithInteractive c1 [("f", "x")]) :=
  C5_static_then_interactive.1 [("V", "s")] [("f", "x")] (fun _ => true) "t"
    ["run \x7b\x7b.V\x7d\x7d $f"] [] (Event.exec "t" "run s x") (by decide)


/-- Claim C6: each interactive field reads one operator line and trims it; a
non-empty trimmed line is the field's value; an empty trimmed line falls back
to a non-empty default even for a required field; an empty trimmed line with
no default fails a required field with the required-input error; and a prompt
failure aborts the task before any of its commands run (the exclusive section
returns the error with only the prompt event appended — no command was
executed and the task was not marked done). -/
theorem C6_prompt_rules (name : String) (p : Prompt) (rest : List (String × Prompt))
    (line : String) (stdin : List String) :
    (goTrimSpace line ≠ "" →
      promptForInput ((name, p) :: rest) (line :: stdin)
        = (promptForInput rest stdin).map (fun r => ((name, goTrimSpace line) :: r.1, r.2))) ∧
    (goTrimSpace line = "" → p.default ≠ "" →
      promptForInput ((name, p) :: rest) (line :: stdin)
        = (promptForInput rest stdin).map (fun r => ((name, p.default) :: r.1, r.2))) ∧
    (goTrimSpace line = "" → p.default = "" → p.required = true →
      promptForInput ((name, p) :: rest) (line :: stdin)
        = Except.error ("required input '" ++ name ++ "' not provided")) ∧
    (∀ (cfg : Config) (exitZero : String → Bool) (taskName : String) (task : Task)
      (s : RState) (e : String),
      promptForInput task.interactive s.stdin = Except.error e →
      markAndRun cfg exitZero taskName task s
        = (⟨s.ran, s.events ++ [Event.prompt taskName], s.stdin⟩,
           Except.error ("interactive input failed: " ++ e))) := by
  refine ⟨?_, ?_, ?_, ?_⟩
  · intro hne
    simp only [promptForInput]
    rw [if_neg (show ¬(goTrimSpace line = "" ∧ p.default ≠ "") from fun hc => hne hc.1)]
    rw [if_neg (show ¬(p.required = true ∧ goTrimSpace line = "") from fun hc => hne hc.2)]
  · intro he hd
    simp only [promptForInput]
    rw [if_pos (show goTrimSpace line = "" ∧ p.default ≠ "" from ⟨he, hd⟩)]
    rw [if_neg (show ¬(p.required = true ∧ p.default = "") from fun hc => hd hc.2)]
  · intro he hd hreq
    simp only [promptForInput]
    rw [if_neg (show ¬(goTrimSpace line = "" ∧ p.default ≠ "") from fun hc => hc.2 hd)]
    rw [if_pos (show p.required = true ∧ goTrimSpace line = "" from ⟨hreq, he⟩)]
  · intro cfg exitZero taskName task s e hp
    simp only [markAndRun, hp]

theorem C6_prompt_rules_witness :
    promptForInput [("name", ⟨"m", true, "world"⟩)] [" "]
      = Except.ok ([("name", "world")], []) ∧
    promptForInput [("name", ⟨"m", true, ""⟩)] [" "]
      = Except.error ("required input '" ++ "name" ++ "' not provided") ∧
    markAndRun promptCfg (fun _ => true) "greet"
        ⟨"", [], ["echo hi"], [("name", ⟨"m", true, ""⟩)]⟩ ⟨[], [], [""]⟩
      = (⟨[], [Event.prompt "greet"], [""]⟩,
         Except.error ("interactive input failed: " ++ "required input 'name' not provided")) :=
  ⟨by
    have h := (C6_prompt_rules "name" ⟨"m", true, "world"⟩ [] " " []).2.1 (by decide) (by decide)
    exact h.trans (by decide),
   (C6_prompt_rules "name" ⟨"m", true, ""⟩ [] " " []).2.2.1 (by decide) (by decide) (by decide),
   by
    have h := (C6_prompt_rules "x" ⟨"m", true, ""⟩ [] "" []).2.2.2 promptCfg (fun _ => true)
      "greet" ⟨"", [], ["echo hi"], [("name", ⟨"m", true, ""⟩)]⟩ ⟨[], [], [""]⟩
      "required input 'name' not provided" (by decide)
    exact h⟩


theorem runTaskWithSync_succ (cfg : Config) (exitZero : String → Bool) (fuel : Nat)
    (s : RState) (taskName : String) :
    runTaskWithSync cfg exitZero (fuel + 1) s taskName
      = (if taskName ∈ s.ran then (s, Except.ok ())
        else
          match cfg.tasks.lookup taskName with
          | none => (s, Except.error ("task " ++ taskName ++ " not found"))
          | some task =>
            let dp :=
              if task.deps.isEmpty then (s, Except.ok ())
              else runDependenciesParallel (fun s1 d => runTaskWithSync cfg exitZero fuel s1 d)
                task.deps s
            match dp.2 with
            | Except.error e => (dp.1, Except.error e)
            | Except.ok _ =>
              if taskName ∈ dp.1.ran then (dp.1, Except.ok ())
              else markAndRun cfg exitZero taskName task dp.1) := rfl

theorem runTaskWithSync_step_ok (cfg : Config) (exitZero : String → Bool) (fuel : Nat)
    (s : RState) (taskName : String) (task : Task) (s1 : RState)
    (hnr : taskName ∉ s.ran) (hlook : cfg.tasks.lookup taskName = some task)
    (hdp : (if task.deps.isEmpty then (s, Except.ok ())
        else runDependenciesParallel (fun s2 d => runTaskWithSync cfg exitZero fuel s2 d)
          task.deps s) = (s1, Except.ok ())) :
    runTaskWithSync cfg exitZero (fuel + 1) s taskName
      = if taskName ∈ s1.ran then (s1, Except.ok ())
        else markAndRun cfg exitZero taskName task s1 := by
  simp only [runTaskWithSync_succ, if_neg hnr, hlook, hdp]

theorem markAndRun_prompts (cfg : Config) (exitZero : String → Bool) (taskName : String)
    (task : Task) (s : RState) :
    ∃ tl, (markAndRun cfg exitZero taskName task s).1.events
      = s.events ++ Event.prompt taskName :: tl := by
  simp only [markAndRun]
  cases hp : promptForInput task.interactive s.stdin with
  | error e => exact ⟨[], by simp⟩
  | ok r =>
    simp only
    obtain ⟨tl, he, _⟩ := execCmds_events cfg.vars exitZero taskName r.1 task.cmds
      (s.events ++ [Event.prompt taskName] ++ [Event.mark taskName])
    exact ⟨Event.mark taskName :: tl, by rw [he]; simp⟩

/-- Claim C10: when interactive input collection for a task fails, the run
returns the wrapped error with the task still unmarked and none of its
commands executed (the state gains only the prompt event), and a later run of
the same task in the same invocation attempts it again: it gets past the
`Ran` check and collects input anew (another prompt event is emitted). -/
theorem C10_prompt_failure_retry (cfg : Config) (exitZero : String → Bool) (fuel : Nat)
    (s s1 : RState) (name : String) (task : Task) (e : String)
    (hI : Inv s)
    (hlook : cfg.tasks.lookup name = some task)
    (hnr : name ∉ s.ran)
    (hdeps : (if task.deps.isEmpty then (s, Except.ok ())
        else runDependenciesParallel (fun s2 d => runTaskWithSync cfg exitZero fuel s2 d)
          task.deps s) = (s1, Except.ok ()))
    (hnr1 : name ∉ s1.ran)
    (hpf : promptForInput task.interactive s1.stdin = Except.error e) :
    runTaskWithSync cfg exitZero (fuel + 1) s name
      = (⟨s1.ran, s1.events ++ [Event.prompt name], s1.stdin⟩,
         Except.error ("interactive input failed: " ++ e)) ∧
    name ∉ s1.ran ∧
    (∀ c, Event.exec name c ∉ s1.events ++ [Event.prompt name]) ∧
    (∀ fuel2, ∃ tl,
      (runTaskWithSync cfg exitZero (fuel2 + 2)
          (⟨s1.ran, s1.events ++ [Event.prompt name], s1.stdin⟩ : RState) name).1.events
        = (s1.events ++ [Event.prompt name]) ++ Event.prompt name :: tl) := by
  have hs1 : Inv s1 ∧ Extends s s1 ∧ ∀ d ∈ task.deps, d ∈ s1.ran := by
    by_cases hde : task.deps.isEmpty
    · rw [if_pos hde] at hdeps
      have h1 : s1 = s := congrArg Prod.fst hdeps.symm
      subst h1
      exact ⟨hI, Extends.rfl, fun d hd =>
        absurd hd (by rw [List.isEmpty_iff.1 hde]; simp)⟩
    · rw [if_neg hde] at hdeps
      obtain ⟨a, b, c⟩ := runDependenciesParallel_sound (runTask_sound cfg exitZero fuel)
        task.deps s hI
      rw [hdeps] at a b c
      exact ⟨a, b, c rfl⟩
  have hrun : runTaskWithSync cfg exitZero (fuel + 1) s name
      = (⟨s1.ran, s1.events ++ [Event.prompt name], s1.stdin⟩,
         Except.error ("interactive input failed: " ++ e)) := by
    rw [runTaskWithSync_step_ok cfg exitZero fuel s name task s1 hnr hlook hdeps, if_neg hnr1]
    simp only [markAndRun, hpf]
  refine ⟨hrun, hnr1, ?_, ?_⟩
  · intro c hc
    rcases List.mem_append.1 hc with hc | hc
    · have hmk : Event.mark name ∈ s1.events := (hs1.1.2.2.2 name c).mem hc
      exact hnr1 (hs1.1.1 name hmk)
    · exact absurd (List.mem_singleton.1 hc) (by simp)
  · intro fuel2
    have hdpX : (if task.deps.isEmpty
        then ((⟨s1.ran, s1.events ++ [Event.prompt name], s1.stdin⟩ : RState), Except.ok ())
        else runDependenciesParallel
          (fun s2 d => runTaskWithSync cfg exitZero (fuel2 + 1) s2 d) task.deps
          (⟨s1.ran, s1.events ++ [Event.prompt name], s1.stdin⟩ : RState))
        = ((⟨s1.ran, s1.events ++ [Event.prompt name], s1.stdin⟩ : RState), Except.ok ()) := by
      by_cases hde : task.deps.isEmpty
      · rw [if_pos hde]
      · rw [if_neg hde]
        exact runDeps_skip cfg exitZero fuel2 _ task.deps (fun d hd => hs1.2.2 d hd)
    rw [runTaskWithSync_step_ok cfg exitZero (fuel2 + 1)
      (⟨s1.ran, s1.events ++ [Event.prompt name], s1.stdin⟩ : RState) name task
      (⟨s1.ran, s1.events ++ [Event.prompt name], s1.stdin⟩ : RState) hnr1 hlook hdpX,
      if_neg hnr1]
    exact markAndRun_prompts cfg exitZero name task
      (⟨s1.ran, s1.events ++ [Event.prompt name], s1.stdin⟩ : RState)


/-- A task with a required interactive field and no default; the operator
answers with a blank line, so input collection fails. -/
def promptReqCfg : Config :=
  ⟨[], [("ask", ⟨"", [], ["echo hi"], [("name", ⟨"Your name", true, ""⟩)]⟩)]⟩

theorem C10_prompt_failure_retry_witness :
    runTaskWithSync promptReqCfg (fun _ => true) 1 (initState [""]) "ask"
      = (⟨[], [Event.prompt "ask"], [""]⟩,
         Except.error "interactive input failed: required input 'name' not provided") ∧
    (∀ c, Event.exec "ask" c ∉ [Event.prompt "ask"]) := by
  have h := C10_prompt_failure_retry promptReqCfg (fun _ => true) 0 (initState [""])
    (initState [""]) "ask" ⟨"", [], ["echo hi"], [("name", ⟨"Your name", true, ""⟩)]⟩
    "required input 'name' not provided" (Inv_initState [""]) (by decide) (by decide) (by decide)
    (by decide) (by decide)
  refine ⟨h.1.trans (by decide), fun c hc => ?_⟩
  have h2 := h.2.2.1 c
  simp only [initState, List.nil_append] at h2
  exact h2 hc

theorem runSetup_ok (vars : List (String × String)) (exitZero : String → Bool)
    (taskName : String) :
    ∀ (cmds : List String) (s : RState),
      (runSetup vars exitZero taskName cmds s).2 = Except.ok () →
      ∃ rendered, cmds.mapM (expandVars vars) = Except.ok rendered ∧
        rendered.all exitZero = true ∧
        (runSetup vars exitZero taskName cmds s).1
          = ⟨s.ran, s.events ++ rendered.map (Event.exec taskName), s.stdin⟩ := by
  intro cmds
  induction cmds with
  | nil =>
    intro s _
    exact ⟨[], rfl, rfl, by cases s; simp [runSetup]⟩
  | cons raw rest ih =>
    intro s h
    simp only [runSetup] at h ⊢
    cases hx : expandVars vars raw with
    | error e =>
      rw [hx] at h
      exact absurd h (by simp)
    | ok cmdStr =>
      rw [hx] at h
      simp only at h ⊢
      by_cases hz : exitZero cmdStr
      · rw [if_pos hz] at h ⊢
        obtain ⟨rendered, h1, h2, h3⟩ := ih _ h
        refine ⟨cmdStr :: rendered, ?_, ?_, ?_⟩
        · rw [List.mapM_cons, hx, h1]
          rfl
        · simp [List.all_cons, hz, h2]
        · rw [h3]
          simp
      · rw [if_neg hz] at h
        exact absurd h (by simp)

/-- Claim C7: a successful detached start runs the task's dependencies
synchronously (their events carry no spawn), then runs every command but the
last as synchronous setup (each rendered by the static pass and exiting zero),
and spawns exactly the rendered final command as the single background
process; the returned record carries that command, the task name and the pid. -/
theorem C7_detached_structure (cfg : Config) (exitZero : String → Bool) (fuel : Nat)
    (pid : Int) (timestamp : String) (s : RState) (name : String) (proc : DetachedProcess)
    (hI : Inv s)
    (hok : (RunTaskDetached cfg exitZero fuel pid timestamp s name).2 = Except.ok proc) :
    ∃ task depEv setupRendered,
      cfg.tasks.lookup name = some task ∧
      task.cmds ≠ [] ∧
      task.cmds.dropLast.mapM (expandVars cfg.vars) = Except.ok setupRendered ∧
      setupRendered.all exitZero = true ∧
      expandVars cfg.vars (task.cmds.getLastD "") = Except.ok proc.command ∧
      (∀ t c, Event.spawn t c ∉ depEv) ∧
      (RunTaskDetached cfg exitZero fuel pid timestamp s name).1.events
        = s.events ++ depEv ++ setupRendered.map (Event.exec name)
          ++ [Event.spawn name proc.command] ∧
      proc.task_name = name ∧ proc.pid = pid := by
  cases hlook : cfg.tasks.lookup name with
  | none =>
    rw [show RunTaskDetached cfg exitZero fuel pid timestamp s name
        = (s, Except.error ("task " ++ name ++ " not found")) from by
      simp only [RunTaskDetached, hlook]] at hok
    exact absurd hok (by simp)
  | some task =>
    cases hdp : (if task.deps.isEmpty then (s, Except.ok ())
        else runDependenciesParallel (fun s1 d => runTaskWithSync cfg exitZero fuel s1 d)
          task.deps s) with
    | mk s1 r1 =>
      cases r1 with
      | error e =>
        rw [show RunTaskDetached cfg exitZero fuel pid timestamp s name
            = (s1, Except.error ("dependencies failed: " ++ e)) from by
          simp only [RunTaskDetached, hlook, hdp]] at hok
        exact absurd hok (by simp)
      | ok u =>
        cases u
        have hExt : Extends s s1 := by
          by_cases hde : task.deps.isEmpty
          · rw [if_pos hde] at hdp
            injection hdp with h1 h2
            subst h1
            exact Extends.rfl
          · rw [if_neg hde] at hdp
            have h2 := (runDependenciesParallel_sound (runTask_sound cfg exitZero fuel)
              task.deps s hI).2.1
            rw [hdp] at h2
            exact h2
        obtain ⟨depEv, hDev, hDnospawn⟩ := hExt.2.1
        by_cases hce : task.cmds.isEmpty
        · rw [show RunTaskDetached cfg exitZero fuel pid timestamp s name
              = (s1, Except.error ("task " ++ name ++ " has no commands to run")) from by
            simp only [RunTaskDetached, hlook, hdp, if_pos hce]] at hok
          exact absurd hok (by simp)
        · cases hset : runSetup cfg.vars exitZero name task.cmds.dropLast s1 with
          | mk s2 r2 =>
            cases r2 with
            | error e =>
              rw [show RunTaskDetached cfg exitZero fuel pid timestamp s name
                  = (s2, Except.error e) from by
                simp only [RunTaskDetached, hlook, hdp, if_neg hce, hset]] at hok
              exact absurd hok (by simp)
            | ok u2 =>
              cases u2
              cases hmain : expandVars cfg.vars (task.cmds.getLastD "") with
              | error e =>
                rw [show RunTaskDetached cfg exitZero fuel pid timestamp s name
                    = (s2, Except.error e) from by
                  simp only [RunTaskDetached, hlook, hdp, if_neg hce, hset, hmain]] at hok
                exact absurd hok (by simp)
              | ok cmdStr =>
                have hfull : RunTaskDetached cfg exitZero fuel pid timestamp s name
                    = (⟨s2.ran, s2.events ++ [Event.spawn name cmdStr], s2.stdin⟩,
                       Except.ok ⟨pid, name, cmdStr, timestamp,
                         ".t-logs/" ++ name ++ "-" ++ timestamp ++ ".log"⟩) := by
                  simp only [RunTaskDetached, hlook, hdp, if_neg hce, hset, hmain]
                rw [hfull] at hok
                simp only [Except.ok.injEq] at hok
                obtain ⟨rendered, hs1, hs2, hs3⟩ := runSetup_ok cfg.vars exitZero name
                  task.cmds.dropLast s1 (by rw [hset])
                rw [hset] at hs3
                simp only at hs3
                refine ⟨task, depEv, rendered, rfl, fun hcnil => hce (by simp [hcnil]),
                  hs1, hs2, ?_, hDnospawn, ?_, ?_, ?_⟩
                · rw [← hok]
                  exact hmain
                · rw [hfull]
                  simp only
                  rw [hs3, hDev, ← hok]
                · rw [← hok]
                · rw [← hok]


/-- The detached example: `serve` depends on `build` and has a setup command
before its long-lived final command. -/
def detachCfg : Config :=
  ⟨[], [("serve", ⟨"", ["build"], ["setup1", "serve2"], []⟩),
        ("build", ⟨"", [], ["make"], []⟩)]⟩

theorem C7_detached_structure_witness :
    ∃ task depEv setupRendered,
      detachCfg.tasks.lookup "serve" = some task ∧
      task.cmds ≠ [] ∧
      task.cmds.dropLast.mapM (expandVars detachCfg.vars) = Except.ok setupRendered ∧
      setupRendered.all (fun _ => true) = true ∧
      expandVars detachCfg.vars (task.cmds.getLastD "")
        = Except.ok (DetachedProcess.mk 42 "serve" "serve2" "ts" ".t-logs/serve-ts.log").command ∧
      (∀ t c, Event.spawn t c ∉ depEv) ∧
      (RunTaskDetached detachCfg (fun _ => true) 2 42 "ts" (initState []) "serve").1.events
        = (initState []).events ++ depEv ++ setupRendered.map (Event.exec "serve")
          ++ [Event.spawn "serve"
              (DetachedProcess.mk 42 "serve" "serve2" "ts" ".t-logs/serve-ts.log").command] ∧
      (DetachedProcess.mk 42 "serve" "serve2" "ts" ".t-logs/serve-ts.log").task_name = "serve" ∧
      (DetachedProcess.mk 42 "serve" "serve2" "ts" ".t-logs/serve-ts.log").pid = 42 :=
  C7_detached_structure detachCfg (fun _ => true) 2 42 "ts" (initState []) "serve"
    (DetachedProcess.mk 42 "serve" "serve2" "ts" ".t-logs/serve-ts.log")
    (Inv_initState []) (by decide)

/-! ### Claims C8 and C9 -/

/-- Claim C9: a List call returns exactly the persisted records whose process
id is OS-level live, and the store afterwards holds exactly those same live
records — every record whose process is dead is deleted as a side effect, so
a record for a dead process never survives a List call. -/
theorem C9_list_read_repair (alive : Int → Bool) (store : List DetachedProcess) :
    (ListDetachedProcesses alive store).1 = store.filter (fun p => alive p.pid) ∧
    (ListDetachedProcesses alive store).2 = store.filter (fun p => alive p.pid) := by
  induction store with
  | nil => simp [ListDetachedProcesses]
  | cons p rest ih =>
    simp only [ListDetachedProcesses, List.filter_cons]
    by_cases h : alive p.pid
    · simp [h, ih.1, ih.2]
    · simp [h, ih.1, ih.2]

/-- Counterexample to claim C8.  The claim says that whenever no persisted
record matches the identifier, Stop returns an error instead of terminating
anything.  With an empty store (no record can match) and the numeric
identifier `12345`, `StopDetachedProcess` parses the identifier as a pid,
keeps it as the kill target even though no record matches, kills that pid and
reports success with no task name — it does not return an error. -/
theorem C8_counterexample :
    StopDetachedProcess (fun _ => true) (fun _ => true) (fun _ => true) (fun _ => true)
      [] "12345" = Except.ok ⟨12345, none, []⟩ := by decide

/-- Claim C8 (amended): Stop resolves a non-numeric identifier to the first
live record with that task name — terminating it, deleting its record and
reporting the task and pid — and errors when no record has that name; a
numeric identifier, however, is used as the target pid directly even when no
record matches it: the pid is killed anyway, the matching record (if any) is
looked up only for reporting, and the record file for that pid is removed. -/
theorem C8_stop_resolution (alive killGroup kill kill9 : Int → Bool)
    (store : List DetachedProcess) (identifier : String) :
    (atoi identifier = none →
      ∀ p, (ListDetachedProcesses alive store).1.find? (fun q => q.task_name = identifier)
          = some p →
        p.pid ≠ 0 → (killGroup p.pid = true ∨ kill p.pid = true ∨ kill9 p.pid = true) →
        StopDetachedProcess alive killGroup kill kill9 store identifier
          = Except.ok ⟨p.pid, some p,
              (ListDetachedProcesses alive store).2.filter (fun q => q.pid ≠ p.pid)⟩) ∧
    (atoi identifier = none →
      (ListDetachedProcesses alive store).1.find? (fun q => q.task_name = identifier) = none →
      StopDetachedProcess alive killGroup kill kill9 store identifier
        = Except.error ("no detached process found with identifier: " ++ identifier)) ∧
    (∀ pid : Int, atoi identifier = some pid → pid ≠ 0 →
      (killGroup pid = true ∨ kill pid = true ∨ kill9 pid = true) →
      StopDetachedProcess alive killGroup kill kill9 store identifier
        = Except.ok ⟨pid, (ListDetachedProcesses alive store).1.find? (fun q => q.pid = pid),
            (ListDetachedProcesses alive store).2.filter (fun q => q.pid ≠ pid)⟩) := by
  refine ⟨?_, ?_, ?_⟩
  · intro hatoi p hfind hpid hkill
    have hb : (!killGroup p.pid && !kill p.pid && !kill9 p.pid) = false := by
      rcases hkill with h | h | h <;> simp [h]
    simp only [StopDetachedProcess, hatoi, hfind]
    rw [if_neg hpid]
    simp [hb]
  · intro hatoi hfind
    simp only [StopDetachedProcess, hatoi, hfind]
    simp
  · intro pid hatoi hpid hkill
    have hb : (!killGroup pid && !kill pid && !kill9 pid) = false := by
      rcases hkill with h | h | h <;> simp [h]
    simp only [StopDetachedProcess, hatoi]
    rw [if_neg hpid]
    simp [hb]

theorem C8_stop_resolution_witness :
    StopDetachedProcess (fun _ => true) (fun _ => true) (fun _ => false) (fun _ => false)
        [⟨100, "web", "npm start", "t1", "log1"⟩, ⟨200, "web", "cmd", "t2", "log2"⟩] "web"
      = Except.ok ⟨100, some ⟨100, "web", "npm start", "t1", "log1"⟩,
          [⟨200, "web", "cmd", "t2", "log2"⟩]⟩ ∧
    StopDetachedProcess (fun _ => true) (fun _ => true) (fun _ => false) (fun _ => false)
        [⟨100, "web", "npm start", "t1", "log1"⟩] "ghost"
      = Except.error "no detached process found with identifier: ghost" ∧
    StopDetachedProcess (fun _ => true) (fun _ => true) (fun _ => false) (fun _ => false)
        [⟨100, "web", "npm start", "t1", "log1"⟩] "999"
      = Except.ok ⟨999, none, [⟨100, "web", "npm start", "t1", "log1"⟩]⟩ := by
  refine ⟨?_, ?_, ?_⟩
  · have h := (C8_stop_resolution (fun _ => true) (fun _ => true) (fun _ => false)
      (fun _ => false)
      [⟨100, "web", "npm start", "t1", "log1"⟩, ⟨200, "web", "cmd", "t2", "log2"⟩] "web").1
      (by decide) ⟨100, "web", "npm start", "t1", "log1"⟩ (by decide) (by decide)
      (Or.inl rfl)
    exact h.trans (by decide)
  · have h := (C8_stop_resolution (fun _ => true) (fun _ => true) (fun _ => false)
      (fun _ => false) [⟨100, "web", "npm start", "t1", "log1"⟩] "ghost").2.1
      (by decide) (by decide)
    exact h.trans (by decide)
  · have h := (C8_stop_resolution (fun _ => true) (fun _ => true) (fun _ => false)
      (fun _ => false) [⟨100, "web", "npm start", "t1", "log1"⟩] "999").2.2 999
      (by decide) (by decide) (Or.inl rfl)
    exact h.trans (by decide)

end T
